import Mathlib

/-!
# Verification of the concurrency core of the tangybbq keyboard firmware

Shallow embedding of the C glue code in `src/zbbq/src` and `src/jolt/src`
(Output Gate over `usb_sem`, Inter-Board UART link, critical-section
spinlock, heartbeat timer) together with a spec-modelled bounded event
queue, plus theorems checking the natural-language specification against
these definitions.
-/

namespace Firmware

/-! ## Zephyr semaphore (`struct k_sem`) as used by `usb.c`

`K_SEM_DEFINE(usb_sem, 1, 1)` creates a semaphore with initial count 1 and
limit 1.  `k_sem_give` increments the count, saturating at the limit;
`k_sem_count_get` reads the count without modifying it. -/

structure KSem where
  count : Nat
  limit : Nat
  deriving Repr, DecidableEq

/-- `K_SEM_DEFINE(usb_sem, 1, 1)` from `src/zbbq/src/usb.c` line 19 (and
identically `src/jolt/src/usb.c` line 19): initial count 1, limit 1. -/
def usb_sem : KSem := { count := 1, limit := 1 }

/-- `k_sem_give`: increment the count, capped at the semaphore's limit. -/
def k_sem_give (s : KSem) : KSem :=
  { s with count := min (s.count + 1) s.limit }

/-- `k_sem_count_get`: pure read of the current count; the semaphore state
is returned unchanged (state-passing form, to make the frame explicit). -/
def k_sem_count_get (s : KSem) : Nat × KSem := (s.count, s)

/-- Effect on the semaphore of a `k_sem_take` that succeeded (count was
positive): decrement the count. -/
def k_sem_take_ok (s : KSem) : KSem :=
  { s with count := s.count - 1 }

/-- Result of `k_sem_take(sem, K_FOREVER)`. -/
inductive TakeResult where
  /-- The context check at the primitive boundary failed: halt. -/
  | halted (s : KSem)
  /-- Count was zero: the caller is suspended, semaphore unchanged. -/
  | blocked (s : KSem)
  /-- Count was positive: decremented, caller proceeds. -/
  | ok (s : KSem)
  deriving Repr, DecidableEq

/-- Modelled from the spec: `k_sem_take(&usb_sem, K_FOREVER)` is the
platform's blocking-take primitive (Zephyr kernel, outside this
repository).  Per the spec, "context violations are detected at the
primitive boundary and escalated to an unconditional halt": a blocking
take invoked from interrupt context halts before any state change;
otherwise it decrements the count if positive and suspends the caller
(state unchanged) if the count is zero. -/
def k_sem_take_forever (in_isr : Bool) (s : KSem) : TakeResult :=
  if in_isr then .halted s
  else if 0 < s.count then .ok (k_sem_take_ok s)
  else .blocked s

/-! ## The Output Gate (`src/zbbq/src/usb.c`, `src/jolt/src/usb.c`) -/

/-- A HID report: the 8 bytes passed to `hid_report`. -/
abbrev Report := List Nat

/-- State touched by the Output Gate: the `usb_sem` permit and the
sequence of reports written to the HID endpoint device. -/
structure HidState where
  sem : KSem
  reports : List Report
  deriving Repr, DecidableEq

/-- `int is_hid_accepting(void) { return k_sem_count_get(&usb_sem) > 0; }`
(`src/zbbq/src/usb.c` lines 46-48): reads the count and compares with 0,
passing the (unchanged) semaphore state through. -/
def is_hid_accepting (s : KSem) : Bool × KSem :=
  let (c, s') := k_sem_count_get s
  (decide (0 < c), s')

/-- Outcome of a `hid_report` call. -/
inductive SendOutcome where
  /-- Halted by the context check, carrying the state at the halt. -/
  | halted (st : HidState)
  /-- Suspended waiting for the permit; no report written yet. -/
  | blocked (st : HidState)
  /-- Permit taken and the report written to the HID endpoint. -/
  | sent (st : HidState)
  deriving Repr, DecidableEq

/-- `void hid_report(uint8_t *report)` (`src/zbbq/src/usb.c` lines 52-55):
`k_sem_take(&usb_sem, K_FOREVER); hid_int_ep_write(hid0_dev, report, 8, NULL);`
The take happens first; only if it returns does the report reach the
device. -/
def hid_report (in_isr : Bool) (r : Report) (st : HidState) : SendOutcome :=
  match k_sem_take_forever in_isr st.sem with
  | .halted s => .halted { st with sem := s }
  | .blocked s => .blocked { st with sem := s }
  | .ok s => .sent { sem := s, reports := st.reports ++ [r] }

/-- `static void in_ready_cb(const struct device *dev)`
(`src/zbbq/src/usb.c` lines 38-43): `NO_ISR(); k_sem_give(&usb_sem);`.
`NO_ISR()` is `if (k_is_in_isr()) k_panic();` — the callback panics when
it finds itself in interrupt context (`none` models the panic), and
otherwise its sole action is one `k_sem_give` on `usb_sem`. -/
def in_ready_cb (in_isr : Bool) (st : HidState) : Option HidState :=
  if in_isr then none
  else some { st with sem := k_sem_give st.sem }

/-! ### The gate's reachable-state transition system

The only operations the firmware ever performs on `usb_sem` are the take
inside `hid_report` (from thread context, so it proceeds exactly when the
count is positive) and the give inside `in_ready_cb` (the completion
callback). -/

/-- One transition of the Output Gate's permit. -/
inductive GateStep : KSem → KSem → Prop
  /-- `hid_report`'s `k_sem_take` completes: requires a positive count. -/
  | send (s : KSem) (h : 0 < s.count) : GateStep s (k_sem_take_ok s)
  /-- `in_ready_cb`'s `k_sem_give`. -/
  | release (s : KSem) : GateStep s (k_sem_give s)

/-- States of `usb_sem` reachable from its `K_SEM_DEFINE` initial state. -/
def GateReachable (s : KSem) : Prop :=
  Relation.ReflTransGen GateStep usb_sem s

/-! ## Theorems about the Output Gate -/

theorem gate_inv {s : KSem} (h : GateReachable s) :
    s.count ≤ 1 ∧ s.limit = 1 := by
  induction h with
  | refl => exact ⟨le_refl 1, rfl⟩
  | tail _ st ih =>
    obtain ⟨hc, hl⟩ := ih
    cases st with
    | send ht => exact ⟨Nat.le_trans (Nat.sub_le _ _) hc, hl⟩
    | release =>
      refine ⟨?_, hl⟩
      simp [k_sem_give, hl]

/-- C1: the Output Gate's permit count starts at 1 (`try_is_ready` is true
before any send); from any reachable state the count is at most 1; after a
completed send the count is 0 and `is_hid_accepting` reports false; one
release from count 0 restores count 1; and a release when the count is
already 1 leaves it at 1. -/
theorem output_gate_permit_bound :
    usb_sem.count = 1 ∧
    (is_hid_accepting usb_sem).1 = true ∧
    (∀ s : KSem, GateReachable s → s.count ≤ 1) ∧
    (∀ s : KSem, GateReachable s → 0 < s.count →
      (k_sem_take_ok s).count = 0 ∧
      (is_hid_accepting (k_sem_take_ok s)).1 = false) ∧
    (∀ s : KSem, GateReachable s → s.count = 0 →
      (k_sem_give s).count = 1 ∧ (is_hid_accepting (k_sem_give s)).1 = true) ∧
    (∀ s : KSem, GateReachable s → s.count = 1 → (k_sem_give s).count = 1) := by
  refine ⟨rfl, rfl, ?_, ?_, ?_, ?_⟩
  · intro s hs
    exact (gate_inv hs).1
  · intro s hs hpos
    obtain ⟨hc, _⟩ := gate_inv hs
    have : s.count = 1 := le_antisymm hc hpos
    constructor
    · simp [k_sem_take_ok, this]
    · simp [is_hid_accepting, k_sem_count_get, k_sem_take_ok, this]
  · intro s hs h0
    obtain ⟨_, hl⟩ := gate_inv hs
    constructor
    · simp [k_sem_give, h0, hl]
    · simp [is_hid_accepting, k_sem_count_get, k_sem_give, h0, hl]
  · intro s hs h1
    obtain ⟨_, hl⟩ := gate_inv hs
    simp [k_sem_give, h1, hl]

theorem output_gate_permit_bound_witness :
    GateReachable usb_sem ∧ 0 < usb_sem.count ∧
    (k_sem_take_ok usb_sem).count = 0 ∧
    (is_hid_accepting (k_sem_take_ok usb_sem)).1 = false ∧
    (k_sem_give (k_sem_take_ok usb_sem)).count = 1 ∧
    (k_sem_give usb_sem).count = 1 := by
  have hreach : GateReachable usb_sem := Relation.ReflTransGen.refl
  have hreach0 : GateReachable (k_sem_take_ok usb_sem) :=
    Relation.ReflTransGen.single (GateStep.send usb_sem (by decide))
  obtain ⟨-, -, -, h4, h5, h6⟩ := output_gate_permit_bound
  obtain ⟨ha, hb⟩ := h4 usb_sem hreach (by decide)
  obtain ⟨hc, -⟩ := h5 (k_sem_take_ok usb_sem) hreach0 (by decide)
  exact ⟨hreach, by decide, ha, hb, hc, h6 usb_sem hreach rfl⟩

/-- C3: `hid_report` invoked from interrupt context halts with the state
exactly as it was at the call (the permit untouched, no report written),
and from thread context it never halts for this reason. -/
theorem hid_report_context_check (in_isr : Bool) (r : Report) (st : HidState) :
    (in_isr = true → hid_report in_isr r st = SendOutcome.halted st) ∧
    (in_isr = false → ∀ st' : HidState,
      hid_report in_isr r st ≠ SendOutcome.halted st') := by
  constructor
  · intro h
    subst h
    simp [hid_report, k_sem_take_forever]
  · intro h st'
    subst h
    simp only [hid_report, k_sem_take_forever, if_neg Bool.false_ne_true]
    split <;> rename_i heq
    · split at heq <;> simp at heq
    · simp
    · simp

theorem hid_report_context_check_witness :
    ((true : Bool) = true →
      hid_report true [0] { sem := usb_sem, reports := [] } =
        SendOutcome.halted { sem := usb_sem, reports := [] }) ∧
    ((true : Bool) = false → ∀ st' : HidState,
      hid_report true [0] { sem := usb_sem, reports := [] } ≠
        SendOutcome.halted st') :=
  hid_report_context_check true [0] { sem := usb_sem, reports := [] }

/-- C4 counterexample: invoked while *not* in interrupt context
(`k_is_in_isr()` false), the completion callback does not assert — it
returns normally (having released the permit).  The claim predicts a halt
in exactly this case. -/
theorem in_ready_cb_no_halt_outside_isr :
    in_ready_cb false { sem := { count := 0, limit := 1 }, reports := [] } =
      some { sem := { count := 1, limit := 1 }, reports := [] } := by
  decide

/-- C4 amended: the completion callback asserts (halts) when its check
detects it was invoked while actually *in* interrupt context, and
otherwise performs exactly one action on the gate — a single
`k_sem_give` release of the permit — leaving everything else (the
written-reports log) unchanged. -/
theorem in_ready_cb_spec (in_isr : Bool) (st : HidState) :
    (in_isr = true → in_ready_cb in_isr st = none) ∧
    (in_isr = false →
      in_ready_cb in_isr st = some { st with sem := k_sem_give st.sem }) := by
  constructor
  · intro h
    subst h
    simp [in_ready_cb]
  · intro h
    subst h
    simp [in_ready_cb]

theorem in_ready_cb_spec_witness :
    ((true : Bool) = true →
      in_ready_cb true { sem := usb_sem, reports := [] } = none) ∧
    ((false : Bool) = false →
      in_ready_cb false { sem := usb_sem, reports := [] } =
        some { sem := k_sem_give usb_sem, reports := [] }) :=
  ⟨(in_ready_cb_spec true { sem := usb_sem, reports := [] }).1,
   (in_ready_cb_spec false { sem := usb_sem, reports := [] }).2⟩

/-- C10: `is_hid_accepting` is a pure observation: for every semaphore
state it returns whether the permit count is positive and leaves the
state — in particular the permit count — unchanged. -/
theorem is_hid_accepting_pure (s : KSem) :
    (is_hid_accepting s).2 = s ∧
    ((is_hid_accepting s).1 = true ↔ 0 < s.count) := by
  refine ⟨rfl, ?_⟩
  simp [is_hid_accepting, k_sem_count_get]

/-! ## Inter-Board Link (`src/zbbq/src/uart.c`)

The UART device state visible to `uart.c`: its receive FIFO, its transmit
FIFO with a fixed capacity, and the two interrupt-enable flags the code
toggles.  `uart_fifo_read(uart, &ch, 1)` returns 1 and pops the oldest
byte when the receive FIFO is non-empty, otherwise returns 0;
`uart_fifo_fill(uart, &ch, 1)` appends one byte and returns 1 when the
transmit FIFO has room, otherwise returns 0 without blocking. -/

structure UartState where
  rxBuf : List Nat
  txBuf : List Nat
  txCap : Nat
  rxIrqEnabled : Bool
  txIrqEnabled : Bool
  deriving Repr, DecidableEq

/-- `uart_fifo_read(uart, p, 1)`: pop at most one byte from the receive
FIFO; first component is the byte read (none when the FIFO was empty and
the call returned 0). -/
def uart_fifo_read1 (u : UartState) : Option Nat × UartState :=
  match u.rxBuf with
  | [] => (none, u)
  | b :: rest => (some b, { u with rxBuf := rest })

/-- `uart_fifo_fill(uart, p, 1)`: append one byte to the transmit FIFO if
there is room, returning how many bytes were accepted (0 or 1); never
blocks. -/
def uart_fifo_fill1 (b : Nat) (u : UartState) : Nat × UartState :=
  if u.txBuf.length < u.txCap then (1, { u with txBuf := u.txBuf ++ [b] })
  else (0, u)

/-- `int inter_uart_poll_in(unsigned char *p_char)` in the present
configuration (`src/zbbq/src/uart.c` lines 64-83): one `uart_fifo_read`
of a single byte; returns 0 with the byte written to `*p_char` when one
was read, and -1 with `*p_char` unwritten otherwise. -/
def inter_uart_poll_in (u : UartState) : Int × Option Nat × UartState :=
  match uart_fifo_read1 u with
  | (some b, u') => (0, some b, u')
  | (none, u') => (-1, none, u')

/-- `void inter_uart_poll_out(unsigned char out_char)` in the present
configuration (`src/zbbq/src/uart.c` lines 95-100): a single
`uart_fifo_fill` attempt of one byte, its return value discarded — the
byte is dropped if the FIFO was full. -/
def inter_uart_poll_out (b : Nat) (u : UartState) : UartState :=
  (uart_fifo_fill1 b u).2

/-- The drain loop of `inter_uart_setup`:
`while (uart_fifo_read(uart, &ch, 1) == 1) {}` — each iteration pops the
head of the receive FIFO, stopping when the read returns 0 (FIFO empty). -/
def drainRx (u : UartState) : UartState :=
  match h : uart_fifo_read1 u with
  | (none, u') => u'
  | (some _, u') => drainRx u'
termination_by u.rxBuf.length
decreasing_by
  simp only [uart_fifo_read1] at h
  cases hrx : u.rxBuf with
  | nil => rw [hrx] at h; simp at h
  | cons x rest =>
    rw [hrx] at h
    simp only at h
    cases h
    simp [hrx]

/-- `void inter_uart_setup(void)` in the present configuration
(`src/zbbq/src/uart.c` lines 102-115): disable the receive and transmit
interrupt sources, then drain the receive FIFO. -/
def inter_uart_setup (u : UartState) : UartState :=
  drainRx { u with rxIrqEnabled := false, txIrqEnabled := false }

/-- `inter_uart_poll_in` in the absent (single-board) configuration
(`src/zbbq/src/uart.c` lines 119-123): returns -1, `*p_char` unwritten,
no state touched. -/
def inter_uart_poll_in_absent (u : UartState) : Int × Option Nat × UartState :=
  (-1, none, u)

/-- `inter_uart_poll_out` in the absent configuration
(`src/zbbq/src/uart.c` lines 125-128): the byte is ignored, no state
touched, no blocking. -/
def inter_uart_poll_out_absent (b : Nat) (u : UartState) : UartState := u

/-- `inter_uart_setup` in the absent configuration
(`src/zbbq/src/uart.c` lines 130-132): empty body. -/
def inter_uart_setup_absent (u : UartState) : UartState := u

/-! ## Theorems about the Inter-Board Link -/

/-- C5: in the absent configuration, `poll_byte` always returns the
failure code -1 with the output byte unwritten and the state unchanged,
`send_byte_nonblocking` changes no state, and `setup` changes no state —
all three are total functions (no blocking, no runtime failure). -/
theorem inter_uart_absent_noop (u : UartState) (b : Nat) :
    inter_uart_poll_in_absent u = (-1, none, u) ∧
    inter_uart_poll_out_absent b u = u ∧
    inter_uart_setup_absent u = u :=
  ⟨rfl, rfl, rfl⟩

theorem drainRx_nil (v : UartState) (hnil : v.rxBuf = []) : drainRx v = v := by
  rw [drainRx]
  split <;> rename_i heq
  · have h2 := congrArg Prod.snd heq
    simpa [uart_fifo_read1, hnil] using h2.symm
  · have h1 := congrArg Prod.fst heq
    simp [uart_fifo_read1, hnil] at h1

theorem drainRx_cons (v : UartState) (x : Nat) (rest : List Nat)
    (hrx : v.rxBuf = x :: rest) :
    drainRx v = drainRx { v with rxBuf := rest } := by
  rw [drainRx]
  split <;> rename_i heq
  · have h1 := congrArg Prod.fst heq
    simp [uart_fifo_read1, hrx] at h1
  · have h2 := congrArg Prod.snd heq
    simp only [uart_fifo_read1, hrx] at h2
    rw [← h2]

theorem drainRx_spec (u : UartState) :
    (drainRx u).rxBuf = [] ∧
    (drainRx u).txBuf = u.txBuf ∧
    (drainRx u).txCap = u.txCap ∧
    (drainRx u).rxIrqEnabled = u.rxIrqEnabled ∧
    (drainRx u).txIrqEnabled = u.txIrqEnabled := by
  suffices h : ∀ (n : Nat) (v : UartState), v.rxBuf.length = n →
      (drainRx v).rxBuf = [] ∧
      (drainRx v).txBuf = v.txBuf ∧
      (drainRx v).txCap = v.txCap ∧
      (drainRx v).rxIrqEnabled = v.rxIrqEnabled ∧
      (drainRx v).txIrqEnabled = v.txIrqEnabled by
    exact h u.rxBuf.length u rfl
  intro n
  induction n with
  | zero =>
    intro v hn
    have hnil : v.rxBuf = [] := List.length_eq_zero.mp hn
    rw [drainRx_nil v hnil]
    simp [hnil]
  | succ n ih =>
    intro v hn
    cases hrx : v.rxBuf with
    | nil => rw [hrx] at hn; simp at hn
    | cons x rest =>
      rw [drainRx_cons v x rest hrx]
      have hlen : ({ v with rxBuf := rest } : UartState).rxBuf.length = n := by
        rw [hrx] at hn
        simpa using Nat.succ_injective hn
      simpa using ih { v with rxBuf := rest } hlen

/-- C6: in the present configuration, `setup` leaves both the receive and
transmit interrupt sources disabled and the receive FIFO fully drained
(transmit FIFO untouched); consequently a `poll_byte` issued immediately
after `setup`, before any new byte arrives, returns -1 with the output
byte unwritten. -/
theorem inter_uart_setup_drains (u : UartState) :
    (inter_uart_setup u).rxIrqEnabled = false ∧
    (inter_uart_setup u).txIrqEnabled = false ∧
    (inter_uart_setup u).rxBuf = [] ∧
    (inter_uart_setup u).txBuf = u.txBuf ∧
    inter_uart_poll_in (inter_uart_setup u) =
      (-1, none, inter_uart_setup u) := by
  obtain ⟨h1, h2, h3, h4, h5⟩ :=
    drainRx_spec { u with rxIrqEnabled := false, txIrqEnabled := false }
  refine ⟨?_, ?_, ?_, ?_, ?_⟩
  · rw [inter_uart_setup, h4]
  · rw [inter_uart_setup, h5]
  · rw [inter_uart_setup, h1]
  · rw [inter_uart_setup, h2]
  · rw [inter_uart_setup]
    simp [inter_uart_poll_in, uart_fifo_read1, h1]

/-- C7: in the present configuration, `send_byte_nonblocking` is a single
non-blocking fill attempt: when the transmit FIFO has room the byte is
appended, and when it is full the state is unchanged (the byte silently
dropped, no error, no retry); the receive side is never touched. -/
theorem inter_uart_poll_out_nonblocking (b : Nat) (u : UartState) :
    (u.txBuf.length < u.txCap →
      inter_uart_poll_out b u = { u with txBuf := u.txBuf ++ [b] }) ∧
    (¬ u.txBuf.length < u.txCap → inter_uart_poll_out b u = u) ∧
    (inter_uart_poll_out b u).rxBuf = u.rxBuf := by
  refine ⟨?_, ?_, ?_⟩
  · intro h
    simp [inter_uart_poll_out, uart_fifo_fill1, h]
  · intro h
    simp [inter_uart_poll_out, uart_fifo_fill1, h]
  · by_cases h : u.txBuf.length < u.txCap <;>
      simp [inter_uart_poll_out, uart_fifo_fill1, h]

theorem inter_uart_poll_out_nonblocking_witness :
    inter_uart_poll_out 7 ⟨[], [], 4, false, false⟩ =
      ⟨[], [7], 4, false, false⟩ ∧
    inter_uart_poll_out 9 ⟨[], [1, 2], 2, false, false⟩ =
      ⟨[], [1, 2], 2, false, false⟩ :=
  ⟨(inter_uart_poll_out_nonblocking 7 ⟨[], [], 4, false, false⟩).1 (by decide),
   (inter_uart_poll_out_nonblocking 9 ⟨[], [1, 2], 2, false, false⟩).2.1
     (by decide)⟩

/-! ## Critical Section (`src/zbbq/src/wrappers.c` lines 45-59)

`z_crit_acquire` is `k_spin_lock(&crit_lock)` and `z_crit_release` is
`k_spin_unlock(&crit_lock, key)`: a single process-wide spinlock that
masks interrupts while held, so it excludes both other threads and
interrupt handlers on the same core.  We model two logically concurrent
increment tasks — one in simulated interrupt context, one in thread
context — each running the program
`acquire; r := counter; counter := r + 1; release`, with a context switch
allowed between any two steps; acquiring succeeds only when the lock is
free (the other context either spins or, while the lock holder has
interrupts masked, cannot run at all). -/

/-- The two execution contexts contending for `crit_lock`. -/
inductive Ctx where
  | thread
  | irq
  deriving Repr, DecidableEq

/-- Joint state of the two increment tasks: the spinlock owner, the
shared counter, and each task's program counter and local register.
Program counters: 0 = before acquire, 1 = acquired, 2 = counter read into
the register, 3 = incremented value written back, 4 = released (done). -/
structure CritState where
  lock : Option Ctx
  counter : Nat
  pcT : Nat
  pcI : Nat
  regT : Nat
  regI : Nat
  deriving Repr, DecidableEq

/-- Initial state: lock free, neither task started. -/
def critInit (c0 : Nat) : CritState :=
  { lock := none, counter := c0, pcT := 0, pcI := 0, regT := 0, regI := 0 }

/-- One interleaving step: either task, if enabled, advances by one
instruction.  `z_crit_acquire` only completes when the lock is free. -/
inductive CritStep : CritState → CritState → Prop
  | acquireT (s : CritState) (h1 : s.pcT = 0) (h2 : s.lock = none) :
      CritStep s { s with lock := some Ctx.thread, pcT := 1 }
  | loadT (s : CritState) (h1 : s.pcT = 1) :
      CritStep s { s with regT := s.counter, pcT := 2 }
  | storeT (s : CritState) (h1 : s.pcT = 2) :
      CritStep s { s with counter := s.regT + 1, pcT := 3 }
  | releaseT (s : CritState) (h1 : s.pcT = 3) :
      CritStep s { s with lock := none, pcT := 4 }
  | acquireI (s : CritState) (h1 : s.pcI = 0) (h2 : s.lock = none) :
      CritStep s { s with lock := some Ctx.irq, pcI := 1 }
  | loadI (s : CritState) (h1 : s.pcI = 1) :
      CritStep s { s with regI := s.counter, pcI := 2 }
  | storeI (s : CritState) (h1 : s.pcI = 2) :
      CritStep s { s with counter := s.regI + 1, pcI := 3 }
  | releaseI (s : CritState) (h1 : s.pcI = 3) :
      CritStep s { s with lock := none, pcI := 4 }

/-- States reachable from `critInit c0` under arbitrary interleaving. -/
def CritReachable (c0 : Nat) (s : CritState) : Prop :=
  Relation.ReflTransGen CritStep (critInit c0) s

/-- Inductive invariant: each task inside its critical section (pc 1-3)
holds the lock; a task that has read the counter (pc 2) cached the
current value; the counter equals the initial value plus one per task
that has completed its store (pc ≥ 3; for pc ≤ 4, `pc / 3` is that 0/1
contribution). -/
def CritInv (c0 : Nat) (s : CritState) : Prop :=
  s.pcT ≤ 4 ∧ s.pcI ≤ 4 ∧
  (1 ≤ s.pcT ∧ s.pcT ≤ 3 → s.lock = some Ctx.thread) ∧
  (1 ≤ s.pcI ∧ s.pcI ≤ 3 → s.lock = some Ctx.irq) ∧
  (s.pcT = 2 → s.regT = s.counter) ∧
  (s.pcI = 2 → s.regI = s.counter) ∧
  s.counter = c0 + s.pcT / 3 + s.pcI / 3

theorem critInv_init (c0 : Nat) : CritInv c0 (critInit c0) := by
  simp [CritInv, critInit]

theorem critInv_step {c0 : Nat} {s s' : CritState}
    (hinv : CritInv c0 s) (hstep : CritStep s s') : CritInv c0 s' := by
  obtain ⟨hT4, hI4, hlockT, hlockI, hregT, hregI, hcnt⟩ := hinv
  cases hstep with
  | acquireT h1 h2 =>
    have hInot : ¬ (1 ≤ s.pcI ∧ s.pcI ≤ 3) := by
      intro hc
      have := hlockI hc
      rw [h2] at this
      simp at this
    refine ⟨by dsimp only; omega, by dsimp only; exact hI4, ?_, ?_, ?_, ?_, ?_⟩
    · intro _
      rfl
    · intro hc
      exact absurd hc hInot
    · intro hc
      dsimp only at hc
      omega
    · intro hc
      exact hregI hc
    · dsimp only
      omega
  | loadT h1 =>
    have hT : s.lock = some Ctx.thread := hlockT ⟨by omega, by omega⟩
    have hInot : ¬ (1 ≤ s.pcI ∧ s.pcI ≤ 3) := by
      intro hc
      have := hlockI hc
      rw [hT] at this
      simp at this
    refine ⟨by dsimp only; omega, by dsimp only; exact hI4, ?_, ?_, ?_, ?_, ?_⟩
    · intro _
      exact hT
    · intro hc
      exact absurd hc hInot
    · intro _
      rfl
    · intro hc
      exact hregI hc
    · dsimp only
      omega
  | storeT h1 =>
    have hT : s.lock = some Ctx.thread := hlockT ⟨by omega, by omega⟩
    have hInot : ¬ (1 ≤ s.pcI ∧ s.pcI ≤ 3) := by
      intro hc
      have := hlockI hc
      rw [hT] at this
      simp at this
    have hreg : s.regT = s.counter := hregT h1
    refine ⟨by dsimp only; omega, by dsimp only; exact hI4, ?_, ?_, ?_, ?_, ?_⟩
    · intro _
      exact hT
    · intro hc
      exact absurd hc hInot
    · intro hc
      dsimp only at hc
      omega
    · intro hc
      dsimp only at hc
      exact absurd (⟨by omega, by omega⟩ : 1 ≤ s.pcI ∧ s.pcI ≤ 3) hInot
    · dsimp only
      omega
  | releaseT h1 =>
    have hT : s.lock = some Ctx.thread := hlockT ⟨by omega, by omega⟩
    have hInot : ¬ (1 ≤ s.pcI ∧ s.pcI ≤ 3) := by
      intro hc
      have := hlockI hc
      rw [hT] at this
      simp at this
    refine ⟨by dsimp only; omega, by dsimp only; exact hI4, ?_, ?_, ?_, ?_, ?_⟩
    · intro hc
      dsimp only at hc
      exact absurd hc (by omega)
    · intro hc
      exact absurd hc hInot
    · intro hc
      dsimp only at hc
      omega
    · intro hc
      exact hregI hc
    · dsimp only
      omega
  | acquireI h1 h2 =>
    have hTnot : ¬ (1 ≤ s.pcT ∧ s.pcT ≤ 3) := by
      intro hc
      have := hlockT hc
      rw [h2] at this
      simp at this
    refine ⟨by dsimp only; exact hT4, by dsimp only; omega, ?_, ?_, ?_, ?_, ?_⟩
    · intro hc
      exact absurd hc hTnot
    · intro _
      rfl
    · intro hc
      exact hregT hc
    · intro hc
      dsimp only at hc
      omega
    · dsimp only
      omega
  | loadI h1 =>
    have hI : s.lock = some Ctx.irq := hlockI ⟨by omega, by omega⟩
    have hTnot : ¬ (1 ≤ s.pcT ∧ s.pcT ≤ 3) := by
      intro hc
      have := hlockT hc
      rw [hI] at this
      simp at this
    refine ⟨by dsimp only; exact hT4, by dsimp only; omega, ?_, ?_, ?_, ?_, ?_⟩
    · intro hc
      exact absurd hc hTnot
    · intro _
      exact hI
    · intro hc
      exact hregT hc
    · intro _
      rfl
    · dsimp only
      omega
  | storeI h1 =>
    have hI : s.lock = some Ctx.irq := hlockI ⟨by omega, by omega⟩
    have hTnot : ¬ (1 ≤ s.pcT ∧ s.pcT ≤ 3) := by
      intro hc
      have := hlockT hc
      rw [hI] at this
      simp at this
    have hreg : s.regI = s.counter := hregI h1
    refine ⟨by dsimp only; exact hT4, by dsimp only; omega, ?_, ?_, ?_, ?_, ?_⟩
    · intro hc
      exact absurd hc hTnot
    · intro _
      exact hI
    · intro hc
      dsimp only at hc
      exact absurd (⟨by omega, by omega⟩ : 1 ≤ s.pcT ∧ s.pcT ≤ 3) hTnot
    · intro hc
      dsimp only at hc
      omega
    · dsimp only
      omega
  | releaseI h1 =>
    have hI : s.lock = some Ctx.irq := hlockI ⟨by omega, by omega⟩
    have hTnot : ¬ (1 ≤ s.pcT ∧ s.pcT ≤ 3) := by
      intro hc
      have := hlockT hc
      rw [hI] at this
      simp at this
    refine ⟨by dsimp only; exact hT4, by dsimp only; omega, ?_, ?_, ?_, ?_, ?_⟩
    · intro hc
      exact absurd hc hTnot
    · intro hc
      dsimp only at hc
      exact absurd hc (by omega)
    · intro hc
      exact hregT hc
    · intro hc
      dsimp only at hc
      omega
    · dsimp only
      omega

theorem critInv_reachable {c0 : Nat} {s : CritState}
    (h : CritReachable c0 s) : CritInv c0 s := by
  induction h with
  | refl => exact critInv_init c0
  | tail _ hstep ih => exact critInv_step ih hstep

/-- C8: under every interleaving of the two lock-protected increments —
one from simulated interrupt context, one from thread context — any
reachable state in which both tasks have finished has counter exactly
the initial value plus 2: no lost update. -/
theorem crit_section_no_lost_update (c0 : Nat) (s : CritState)
    (hreach : CritReachable c0 s) (hT : s.pcT = 4) (hI : s.pcI = 4) :
    s.counter = c0 + 2 := by
  obtain ⟨-, -, -, -, -, -, hcnt⟩ := critInv_reachable hreach
  omega

theorem crit_section_no_lost_update_witness :
    CritReachable 0 ⟨none, 2, 4, 4, 0, 1⟩ ∧
    (⟨none, 2, 4, 4, 0, 1⟩ : CritState).pcT = 4 ∧
    (⟨none, 2, 4, 4, 0, 1⟩ : CritState).pcI = 4 ∧
    (⟨none, 2, 4, 4, 0, 1⟩ : CritState).counter = 0 + 2 := by
  have htrace : CritReachable 0 ⟨none, 2, 4, 4, 0, 1⟩ := by
    refine Relation.ReflTransGen.head (CritStep.acquireT (critInit 0) rfl rfl) ?_
    refine Relation.ReflTransGen.head (CritStep.loadT _ rfl) ?_
    refine Relation.ReflTransGen.head (CritStep.storeT _ rfl) ?_
    refine Relation.ReflTransGen.head (CritStep.releaseT _ rfl) ?_
    refine Relation.ReflTransGen.head (CritStep.acquireI _ rfl rfl) ?_
    refine Relation.ReflTransGen.head (CritStep.loadI _ rfl) ?_
    refine Relation.ReflTransGen.head (CritStep.storeI _ rfl) ?_
    refine Relation.ReflTransGen.head (CritStep.releaseI _ rfl) ?_
    exact Relation.ReflTransGen.refl
  exact ⟨htrace, rfl, rfl,
    crit_section_no_lost_update 0 ⟨none, 2, 4, 4, 0, 1⟩ htrace rfl rfl⟩

/-! ## Heartbeat Timer (`src/jolt/src/heartbeat.c`) -/

/-- The kinds of work a timer callback could perform; used to state that
`hb_tick` does nothing but invoke one external callback. -/
inductive Action where
  /-- Invoke an external callback by name, with no arguments, no return
  value and no payload. -/
  | callExtern (name : String)
  /-- Any synchronization operation (semaphore give/take, lock, queue). -/
  | syncOp
  /-- Any allocation. -/
  | alloc
  deriving Repr, DecidableEq

/-- `static void hb_tick(struct k_timer *timer) { rust_heartbeat(); }`
(`src/jolt/src/heartbeat.c` lines 9-11): the expiry function's entire
body is one call of the external `rust_heartbeat`. -/
def hb_tick : List Action := [Action.callExtern "rust_heartbeat"]

/-- A `struct k_timer` as configured by `k_timer_init`/`k_timer_start`:
expiry callback, initial duration and period (milliseconds). -/
structure KTimer where
  callback : List Action
  duration : Nat
  period : Nat
  deriving Repr, DecidableEq

/-- `void setup_heartbeat(void)` (`src/jolt/src/heartbeat.c` lines 13-16):
`k_timer_init(&heartbeat_timer, hb_tick, NULL);`
`k_timer_start(&heartbeat_timer, K_MSEC(1), K_MSEC(1));` -/
def setup_heartbeat : KTimer :=
  { callback := hb_tick, duration := 1, period := 1 }

/-- Time (ms after `k_timer_start`) of the n-th firing of a periodic
timer: the first fire after `duration`, then one every `period`. -/
def fireTime (t : KTimer) (n : Nat) : Nat := t.duration + n * t.period

/-- C9: after `setup_heartbeat`, every firing of the heartbeat timer runs
exactly one action — the external `rust_heartbeat` callback, with no
payload, no synchronization and no allocation — and consecutive firings
are separated by the same fixed period of 1 millisecond, for every n. -/
theorem heartbeat_fixed_period_single_callback (n : Nat) :
    setup_heartbeat.callback = [Action.callExtern "rust_heartbeat"] ∧
    (∀ a ∈ setup_heartbeat.callback, a ≠ Action.syncOp ∧ a ≠ Action.alloc) ∧
    fireTime setup_heartbeat (n + 1) - fireTime setup_heartbeat n = 1 ∧
    setup_heartbeat.period = 1 := by
  refine ⟨rfl, ?_, ?_, rfl⟩
  · intro a ha
    simp only [setup_heartbeat, hb_tick, List.mem_singleton] at ha
    subst ha
    exact ⟨by decide, by decide⟩
  · simp only [fireTime, setup_heartbeat]
    omega

theorem heartbeat_fixed_period_single_callback_witness :
    Action.callExtern "rust_heartbeat" ∈ setup_heartbeat.callback ∧
    (Action.callExtern "rust_heartbeat" ≠ Action.syncOp ∧
      Action.callExtern "rust_heartbeat" ≠ Action.alloc) ∧
    fireTime setup_heartbeat 1 - fireTime setup_heartbeat 0 = 1 :=
  ⟨by decide,
   (heartbeat_fixed_period_single_callback 0).2.1
     (Action.callExtern "rust_heartbeat") (by decide),
   (heartbeat_fixed_period_single_callback 0).2.2.1⟩

/-! ## Bounded Event Queue

The queue itself is not among the C sources (only its mutex/condvar
syscall wrappers in `src/zbbq/src/wrappers.c` are).  Modelled from the
spec: "fixed-capacity ring buffer of T, a mutex protecting
head/tail/count, and a condition variable signaled on state transitions";
`push(item) -> Result<(), Full>` fails immediately with `Full` when
`count == capacity`; `pop_blocking(timeout) -> Result<T, Timeout>`
returns exactly one item in FIFO order, or `Timeout` when no item
arrives.  The mutex serializes the single producer and single consumer,
so a run is a sequence of atomic push/pop effects. -/

structure BoundedQueue (T : Type) where
  cap : Nat
  buf : Nat → T
  head : Nat
  count : Nat

/-- The queue's abstract FIFO contents: `count` items starting at `head`
in the ring. -/
def BoundedQueue.contents {T : Type} (q : BoundedQueue T) : List T :=
  (List.range q.count).map fun i => q.buf ((q.head + i) % q.cap)

/-- Well-formedness from the spec's invariant `0 <= count <= capacity`. -/
def BoundedQueue.WF {T : Type} (q : BoundedQueue T) : Prop :=
  q.count ≤ q.cap

/-- Result of `push`. -/
inductive PushResult where
  | ok
  | full
  deriving Repr, DecidableEq


/-- Modelled from the spec: `push` fails immediately with `Full` when the
queue is at capacity, otherwise stores the item at the ring's tail slot
`(head + count) % capacity` and increments `count`. -/
def BoundedQueue.push {T : Type} (q : BoundedQueue T) (v : T) :
    BoundedQueue T × PushResult :=
  if q.count = q.cap then (q, .full)
  else
    ({ q with
        buf := Function.update q.buf ((q.head + q.count) % q.cap) v,
        count := q.count + 1 }, .ok)

/-- Modelled from the spec: `pop_blocking` returns `Timeout` (here
`none`) when no item is available, otherwise removes and returns the item
at `head`, advancing `head` modulo the capacity. -/
def BoundedQueue.pop {T : Type} (q : BoundedQueue T) :
    Option T × BoundedQueue T :=
  if q.count = 0 then (none, q)
  else
    (some (q.buf (q.head % q.cap)),
      { q with head := (q.head + 1) % q.cap, count := q.count - 1 })

/-- An empty queue of capacity `cap` (all slots zero-initialized). -/
def emptyQueue (cap : Nat) : BoundedQueue Nat :=
  { cap := cap, buf := fun _ => 0, head := 0, count := 0 }

theorem push_ok_wf {T : Type} (q : BoundedQueue T) (v : T)
    (hwf : q.WF) (hne : q.count ≠ q.cap) :
    (q.push v).1.WF ∧ (q.push v).2 = PushResult.ok := by
  simp only [BoundedQueue.push, if_neg hne]
  simp only [BoundedQueue.WF] at hwf ⊢
  exact ⟨by omega, trivial⟩

theorem push_ok_contents {T : Type} (q : BoundedQueue T) (v : T)
    (hwf : q.WF) (hne : q.count ≠ q.cap) :
    (q.push v).1.contents = q.contents ++ [v] := by
  simp only [BoundedQueue.WF] at hwf
  have hlt : q.count < q.cap := lt_of_le_of_ne hwf hne
  simp only [BoundedQueue.push, if_neg hne, BoundedQueue.contents]
  rw [List.range_succ, List.map_append]
  congr 1
  · apply List.map_congr_left
    intro i hi
    rw [List.mem_range] at hi
    apply Function.update_noteq
    intro hceq
    have hmod : i % q.cap = q.count % q.cap :=
      Nat.ModEq.add_left_cancel' q.head hceq
    rw [Nat.mod_eq_of_lt (by omega), Nat.mod_eq_of_lt hlt] at hmod
    omega
  · simp [Function.update_same]

theorem pop_some_contents {T : Type} (q : BoundedQueue T)
    (hwf : q.WF) (hne : q.count ≠ 0) :
    (q.pop).1 = some (q.buf (q.head % q.cap)) ∧
    q.contents = q.buf (q.head % q.cap) :: (q.pop).2.contents ∧
    (q.pop).2.WF := by
  refine ⟨by simp [BoundedQueue.pop, if_neg hne], ?_, ?_⟩
  · simp only [BoundedQueue.pop, if_neg hne, BoundedQueue.contents]
    obtain ⟨m, hm⟩ : ∃ m, q.count = m + 1 := ⟨q.count - 1, by omega⟩
    rw [hm]
    simp only [Nat.add_sub_cancel]
    rw [List.range_succ_eq_map]
    simp only [List.map_cons, List.map_map, Nat.add_zero]
    congr 1
    apply List.map_congr_left
    intro i hi
    simp only [Function.comp_apply]
    congr 1
    rw [Nat.mod_add_mod]
    congr 1
    omega
  · simp only [BoundedQueue.pop, if_neg hne, BoundedQueue.WF]
    simp only [BoundedQueue.WF] at hwf
    omega

theorem pop_none {T : Type} (q : BoundedQueue T) (h0 : q.count = 0) :
    q.pop = (none, q) := by
  simp [BoundedQueue.pop, h0]

/-- One serialized operation on the queue: a push of a value by the
producer, or a pop attempt by the consumer. -/
inductive QOp (T : Type) where
  | push (v : T)
  | pop

/-- Result of running a sequence of operations: final queue, all values
handed to `push` in order, all values returned by `pop_blocking` in
order, and whether any push returned `Full`. -/
structure RunResult (T : Type) where
  q : BoundedQueue T
  pushed : List T
  popped : List T
  sawFull : Bool

/-- Run a serialized sequence of queue operations. -/
def runOps {T : Type} (q : BoundedQueue T) : List (QOp T) → RunResult T
  | [] => { q := q, pushed := [], popped := [], sawFull := false }
  | QOp.push v :: rest =>
    let res := runOps (q.push v).1 rest
    { q := res.q, pushed := v :: res.pushed, popped := res.popped,
      sawFull := res.sawFull || ((q.push v).2 == PushResult.full) }
  | QOp.pop :: rest =>
    match (q.pop).1 with
    | none => runOps (q.pop).2 rest
    | some v =>
      let res := runOps (q.pop).2 rest
      { q := res.q, pushed := res.pushed, popped := v :: res.popped,
        sawFull := res.sawFull }

theorem runOps_push_eq {T : Type} (q : BoundedQueue T) (v : T)
    (rest : List (QOp T)) :
    runOps q (QOp.push v :: rest) =
      { q := (runOps (q.push v).1 rest).q,
        pushed := v :: (runOps (q.push v).1 rest).pushed,
        popped := (runOps (q.push v).1 rest).popped,
        sawFull := (runOps (q.push v).1 rest).sawFull
          || ((q.push v).2 == PushResult.full) } := rfl

theorem runOps_pop_none_eq {T : Type} (q : BoundedQueue T)
    (rest : List (QOp T)) (h : (q.pop).1 = none) :
    runOps q (QOp.pop :: rest) = runOps (q.pop).2 rest := by
  simp only [runOps, h]

theorem runOps_pop_some_eq {T : Type} (q : BoundedQueue T) (v : T)
    (rest : List (QOp T)) (h : (q.pop).1 = some v) :
    runOps q (QOp.pop :: rest) =
      { q := (runOps (q.pop).2 rest).q,
        pushed := (runOps (q.pop).2 rest).pushed,
        popped := v :: (runOps (q.pop).2 rest).popped,
        sawFull := (runOps (q.pop).2 rest).sawFull } := by
  simp only [runOps, h]

theorem runOps_invariant {T : Type} (ops : List (QOp T)) (q : BoundedQueue T)
    (hwf : q.WF) (hfull : (runOps q ops).sawFull = false) :
    q.contents ++ (runOps q ops).pushed =
      (runOps q ops).popped ++ (runOps q ops).q.contents := by
  induction ops generalizing q with
  | nil => simp [runOps]
  | cons op rest ih =>
    cases op with
    | push v =>
      rw [runOps_push_eq] at hfull ⊢
      simp only [Bool.or_eq_false_iff] at hfull
      obtain ⟨hfull', hnotfull⟩ := hfull
      have hne : q.count ≠ q.cap := by
        intro hc
        simp [BoundedQueue.push, if_pos hc] at hnotfull
      have hok := push_ok_wf q v hwf hne
      have hc := push_ok_contents q v hwf hne
      have hrec := ih (q.push v).1 hok.1 hfull'
      rw [hc] at hrec
      simp only []
      rw [← hrec]
      simp
    | pop =>
      by_cases h0 : q.count = 0
      · have hp : (q.pop).1 = none := by rw [pop_none q h0]
        have hq2 : (q.pop).2 = q := by rw [pop_none q h0]
        rw [runOps_pop_none_eq q rest hp] at hfull ⊢
        have hcnil : q.contents = [] := by
          simp [BoundedQueue.contents, h0]
        rw [hq2] at hfull ⊢
        rw [hcnil, List.nil_append]
        have hrec := ih q hwf hfull
        rw [hcnil, List.nil_append] at hrec
        exact hrec
      · obtain ⟨hv, hcons, hwf'⟩ := pop_some_contents q hwf h0
        rw [runOps_pop_some_eq q _ rest hv] at hfull ⊢
        simp only [] at hfull ⊢
        have hrec := ih (q.pop).2 hwf' hfull
        rw [hcons]
        simp only [List.cons_append, List.cons.injEq]
        exact ⟨trivial, hrec⟩

/-- C2: for every serialized sequence of pushes and pops on an initially
empty queue of capacity C — one producer, one consumer — if no push
returned `Full`, then the values returned by the pops are exactly the
first M values handed to push, in push order, each exactly once (the
popped list is a prefix of the pushed list), and M ≤ N. -/
theorem bounded_queue_fifo (C : Nat) (ops : List (QOp Nat))
    (hfull : (runOps (emptyQueue C) ops).sawFull = false) :
    (runOps (emptyQueue C) ops).popped =
      (runOps (emptyQueue C) ops).pushed.take
        (runOps (emptyQueue C) ops).popped.length ∧
    (runOps (emptyQueue C) ops).popped.length ≤
      (runOps (emptyQueue C) ops).pushed.length := by
  have hwf : (emptyQueue C).WF := by
    simp [emptyQueue, BoundedQueue.WF]
  have hinv := runOps_invariant ops (emptyQueue C) hwf hfull
  have hcnil : (emptyQueue C).contents = [] := by
    simp [emptyQueue, BoundedQueue.contents]
  rw [hcnil, List.nil_append] at hinv
  constructor
  · rw [hinv]
    simp [List.take_left]
  · rw [hinv]
    simp

theorem bounded_queue_fifo_witness :
    (runOps (emptyQueue 4)
      [QOp.push 10, QOp.push 20, QOp.pop, QOp.push 30, QOp.pop,
       QOp.pop, QOp.pop]).sawFull = false ∧
    (runOps (emptyQueue 4)
      [QOp.push 10, QOp.push 20, QOp.pop, QOp.push 30, QOp.pop,
       QOp.pop, QOp.pop]).popped = [10, 20, 30] ∧
    (runOps (emptyQueue 4)
      [QOp.push 10, QOp.push 20, QOp.pop, QOp.push 30, QOp.pop,
       QOp.pop, QOp.pop]).popped =
      (runOps (emptyQueue 4)
        [QOp.push 10, QOp.push 20, QOp.pop, QOp.push 30, QOp.pop,
         QOp.pop, QOp.pop]).pushed.take
        (runOps (emptyQueue 4)
          [QOp.push 10, QOp.push 20, QOp.pop, QOp.push 30, QOp.pop,
           QOp.pop, QOp.pop]).popped.length := by
  refine ⟨by decide, by decide, ?_⟩
  exact (bounded_queue_fifo 4
    [QOp.push 10, QOp.push 20, QOp.pop, QOp.push 30, QOp.pop,
     QOp.pop, QOp.pop] (by decide)).1

end Firmware
